import Mathlib

/-!
Shallow embedding of the iterative retrieval-and-answer loop of the repository
(src/API.py, src/chat_engine/iteration.py, src/chat_engine/utils.py,
src/chat_engine/retrieval.py), together with theorems settling the claims
about it.  Python strings are modelled as Lean String / List Char; Python
dicts holding chunk data are modelled by the Chunk structure; the external
search collection is a parameter of type Collection.  Python str.lower is
modelled on the ASCII range plus the one non-ASCII cased character appearing
in the source literals; str.splitlines is modelled on the newline characters
occurring in this code base.
-/

/-- Python str.lower restricted to the characters this code base manipulates:
ASCII letters are mapped as usual and the Latin ligature U+0152 appearing in
the corrupted marker literal of utils.py line 27 is mapped to its lowercase
form U+0153.  All other characters are fixed. -/
def pyLowerChar (c : Char) : Char :=
  if c = 'Œ' then 'œ' else c.toLower

/-- Lowercase a whole character list (Python str.lower). -/
def pyLower (l : List Char) : List Char :=
  l.map pyLowerChar

/-- Python whitespace (the ASCII range of str.strip() and of the regex class \s). -/
def pyIsSpace (c : Char) : Bool :=
  c = ' ' || c = '\t' || c = '\n' || c = '\r' || c = Char.ofNat 11 || c = Char.ofNat 12

/-- The strip set of line.strip("-â€¢ ") in extract_used_sources_from_answer
(utils.py line 55): a hyphen, the three mojibake bytes of a bullet, and a space. -/
def isBulletChar (c : Char) : Bool :=
  c = '-' || c = 'â' || c = '€' || c = '¢' || c = ' '

/-- Whether the first list is an initial segment of the second. -/
def startsWithList : List Char → List Char → Bool
  | [], _ => true
  | _ :: _, [] => false
  | a :: as, b :: bs => decide (a = b) && startsWithList as bs

/-- Python substring containment: subOf needle hay is true when needle occurs
contiguously inside hay (needle in hay). -/
def subOf (needle : List Char) : List Char → Bool
  | [] => needle.isEmpty
  | c :: rest => startsWithList needle (c :: rest) || subOf needle rest

/-- Case-insensitive startsWith against an already-lowercased pattern. -/
def startsCaseless (pat l : List Char) : Bool :=
  startsWithList pat (pyLower l)

/-- Python str.strip with an arbitrary character predicate: remove matching
characters from both ends. -/
def pyStrip (p : Char → Bool) (l : List Char) : List Char :=
  ((l.dropWhile p).reverse.dropWhile p).reverse

/-- Normalize Windows and bare carriage-return line breaks to a line feed,
as Python str.splitlines treats them. -/
def normNewlines : List Char → List Char
  | [] => []
  | '\r' :: '\n' :: rest => '\n' :: normNewlines rest
  | '\r' :: rest => '\n' :: normNewlines rest
  | c :: rest => c :: normNewlines rest

/-- Worker for pySplitLines: split a nonempty list at line feeds, producing no
trailing empty line for a trailing line feed. -/
def splitNlGo (acc : List Char) : List Char → List (List Char)
  | [] => [acc.reverse]
  | c :: rest =>
    if c = '\n' then
      acc.reverse :: (if rest.isEmpty then [] else splitNlGo [] rest)
    else
      splitNlGo (c :: acc) rest

/-- Python str.splitlines on the line break characters used by this code base. -/
def pySplitLines (l : List Char) : List (List Char) :=
  match normNewlines l with
  | [] => []
  | l' => splitNlGo [] l'

/-- The regex search re.search(r"Sources:\s*(.*)", answer, DOTALL | IGNORECASE)
of utils.py line 47: locate the first case-insensitive occurrence of
"sources:" anywhere in the text and return everything after it with the
leading whitespace run removed; none when the marker is absent. -/
def findSourcesTail : List Char → Option (List Char)
  | [] => none
  | c :: rest =>
    if startsCaseless ("sources:".data) (c :: rest) then
      some (((c :: rest).drop 8).dropWhile pyIsSpace)
    else
      findSourcesTail rest

/-- Consume the rest of the current line (regex .* without DOTALL): drop up to
but not including the next line feed. -/
def dropLineRest (l : List Char) : List Char :=
  l.dropWhile (fun ch => decide (ch ≠ '\n'))

/-- Worker for remove_status_from_answer, modelling
re.sub(r"(?im)^status:\s*.*$", "", answer): at each line start a
case-insensitive "status:" followed by a greedy whitespace run (which may
cross line breaks) and the remainder of that line is deleted.  The fuel
argument starts at the length of the list; every step consumes at least one
character, so the fuel never runs out before the list does. -/
def removeStatusGo : Nat → Bool → List Char → List Char
  | 0, _, l => l
  | _ + 1, _, [] => []
  | fuel + 1, atStart, c :: rest =>
    if atStart && startsCaseless ("status:".data) (c :: rest) then
      removeStatusGo fuel false
        ((((c :: rest).drop 7).dropWhile pyIsSpace).dropWhile (fun ch => decide (ch ≠ '\n')))
    else
      c :: removeStatusGo fuel (decide (c = '\n')) rest

/-- utils.py remove_status_from_answer: apply the status-line deleting
substitution, then str.strip the result. -/
def remove_status_from_answer (answer : String) : String :=
  String.mk (pyStrip pyIsSpace (removeStatusGo answer.data.length true answer.data))

/-- Python str.split(sep) for a single-character separator, keeping empty parts. -/
def splitOnCharAll (sep : Char) : List Char → List (List Char)
  | [] => [[]]
  | c :: rest =>
    let r := splitOnCharAll sep rest
    if c = sep then [] :: r
    else
      match r with
      | [] => [[c]]
      | a :: as => (c :: a) :: as

/-- Join character lists with a single-character separator. -/
def intercalateChar (sep : Char) : List (List Char) → List Char
  | [] => []
  | [a] => a
  | a :: rest => a ++ sep :: intercalateChar sep rest

/-- Python source.split("/")[-1]: the segment after the last slash. -/
def afterLastSlash (l : List Char) : List Char :=
  l.foldl (fun acc c => if c = '/' then [] else acc ++ [c]) []

/-- Python source_name.replace(".pdf", ""): delete every occurrence of the
four characters ".pdf", scanning left to right. -/
def removeAllPdf : List Char → List Char
  | '.' :: 'p' :: 'd' :: 'f' :: rest => removeAllPdf rest
  | c :: rest => c :: removeAllPdf rest
  | [] => []

/-- Parse a nonempty all-digit character list as a natural number. -/
def pyToNatDigits (l : List Char) : Option Nat :=
  if l.isEmpty then none
  else
    l.foldl (fun acc c =>
      match acc with
      | none => none
      | some n => if c.isDigit then some (n * 10 + (c.toNat - 48)) else none) (some 0)

/-- Python int(string): optional surrounding whitespace, optional sign, digits;
none when the conversion raises ValueError. -/
def pyToInt (l : List Char) : Option Int :=
  match pyStrip pyIsSpace l with
  | '+' :: ds => (pyToNatDigits ds).map (fun n => (n : Int))
  | '-' :: ds => (pyToNatDigits ds).map (fun n => -(n : Int))
  | ds => (pyToNatDigits ds).map (fun n => (n : Int))

/-- The inclusive integer interval a..b as Python list(range(a, b + 1)). -/
def rangeIncl (a b : Int) : List Int :=
  (List.range (b + 1 - a).toNat).map (fun i => a + (i : Int))

/-- The offsets range(-r, r + 1) with 0 skipped (retrieval.py lines 101-104). -/
def offsetsFor (r : Nat) : List Int :=
  (rangeIncl (-(r : Int)) r).filter (fun o => decide (o ≠ 0))

/-- A page value in a chunk dict: an integer, a string (such as "3-5" or
"N/A"), or an absent key (Python None / missing). -/
inductive PVal where
  | pint (n : Int)
  | pstr (s : String)
  | pnone
deriving DecidableEq

/-- A retrieved chunk dict with the fields this code base reads; the
metaSource / metaPage fields model the metadata sub-dict fallbacks used by
extract_used_sources_from_answer. -/
structure Chunk where
  content : String := ""
  source : Option String := none
  page : PVal := PVal.pnone
  chunkType : Option String := none
  metaSource : Option String := none
  metaPage : PVal := PVal.pnone
deriving DecidableEq

/-- The external search collection, consumed as a point lookup by exact
(source, page) during expansion (retrieval.py lines 120-129). -/
def Collection : Type := String → Int → List Chunk

/-- Python truthiness of an optional string (None and "" are falsy). -/
def truthyStr : Option String → Bool
  | some s => decide (s ≠ "")
  | none => false

/-- Python truthiness of a page value (None, 0 and "" are falsy). -/
def truthyP : PVal → Bool
  | PVal.pint n => decide (n ≠ 0)
  | PVal.pstr s => decide (s ≠ "")
  | PVal.pnone => false

/-- Python str(value) of a page value as used in f-strings (str(None) = "None"). -/
def pyStrOfPVal : PVal → String
  | PVal.pint n => toString n
  | PVal.pstr s => s
  | PVal.pnone => "None"

/-- Python f-string rendering of chunk.get("source") (None prints as "None"). -/
def pyStrOfOpt : Option String → String
  | some s => s
  | none => "None"

/-- The page key f"{chunk.get('source')}_{chunk.get('page')}" used by
get_next_chunk_batch and process_iteration_result. -/
def chunkKey (c : Chunk) : String :=
  pyStrOfOpt c.source ++ "_" ++ pyStrOfPVal c.page

/-- chunk.get("source", "Unknown") as used by prepare_iteration_context. -/
def dispSource (c : Chunk) : String :=
  c.source.getD "Unknown"

/-- chunk.get("page", "N/A") rendered by an f-string in prepare_iteration_context. -/
def dispPage (c : Chunk) : String :=
  match c.page with
  | PVal.pint n => toString n
  | PVal.pstr s => s
  | PVal.pnone => "N/A"

/-- The dedup key f"{source}_{page}" of prepare_iteration_context, built from
the defaulted display values. -/
def dispKey (c : Chunk) : String :=
  dispSource c ++ "_" ++ dispPage c

/-- Whether chunk.get("type") is in ["table", "table_with_context"]. -/
def isTableType (c : Chunk) : Bool :=
  match c.chunkType with
  | some t => decide (t = "table") || decide (t = "table_with_context")
  | none => false

/-- utils.py estimate_tokens: length in characters divided by four. -/
def estimate_tokens (text : String) : Nat :=
  text.length / 4

/-- utils.py check_if_answer_incomplete: the lowered text contains both
"status:" and "partial information" as substrings. -/
def check_if_answer_incomplete (answer : String) : Bool :=
  let al := pyLower answer.data
  subOf ("status:".data) al && subOf ("partial information".data) al

/-- The byte-corrupted marker literal of utils.py line 27, characters
U+00E2 U+0152 followed by the phrase. -/
def mojibakeMarker : List Char :=
  "âŒ no sufficient information found".data

/-- utils.py check_if_answer_insufficient: the lowered text contains the
corrupted marker phrase, or contains both "status:" and "no information"
as substrings. -/
def check_if_answer_insufficient (answer : String) : Bool :=
  let al := pyLower answer.data
  subOf mojibakeMarker al ||
    (subOf ("status:".data) al && subOf ("no information".data) al)

/-- chunk.get("source") or chunk.get("metadata", {}).get("source", "") of
utils.py line 65. -/
def effSource (c : Chunk) : String :=
  match c.source with
  | some s => if s ≠ "" then s else (c.metaSource.getD "")
  | none => c.metaSource.getD ""

/-- chunk.get("page") or chunk.get("metadata", {}).get("page", "") of
utils.py line 66. -/
def effPage (c : Chunk) : PVal :=
  if truthyP c.page then c.page
  else
    match c.metaPage with
    | PVal.pnone => PVal.pstr ""
    | p => p

/-- The source-line list of the Sources section (utils.py lines 51-58): lower
the tail, split into lines, keep lines that are nonempty after a whitespace
strip, and strip bullet characters then whitespace from each. -/
def parseSourceLines (tail : List Char) : List (List Char) :=
  let st := pyLower tail
  ((pySplitLines st).filter (fun l => decide (pyStrip pyIsSpace l ≠ []))).map
    (fun l => pyStrip pyIsSpace (pyStrip isBulletChar l))

/-- The parsed source lines of an answer, empty when no Sources marker exists. -/
def answerSourceLines (answer : String) : List (List Char) :=
  match findSourcesTail answer.data with
  | none => []
  | some tail => parseSourceLines tail

/-- utils.py lines 61-78: a chunk is cited when it has a truthy source and
page and some source line contains both its cleaned source name (last path
segment with every ".pdf" removed, lowercased) and str(page) as substrings. -/
def citedPred (lines : List (List Char)) (c : Chunk) : Bool :=
  let s := effSource c
  let p := effPage c
  if s = "" || !(truthyP p) then false
  else
    let name := pyLower (removeAllPdf (afterLastSlash s.data))
    lines.any (fun line => subOf name line && subOf ((pyStrOfPVal p).data) line)

/-- utils.py extract_used_sources_from_answer. -/
def extract_used_sources_from_answer (answer : String) (usedChunks : List Chunk) : List Chunk :=
  match findSourcesTail answer.data with
  | none => []
  | some tail => usedChunks.filter (citedPred (parseSourceLines tail))

/-- iteration.py MAX_CONTEXT_TOKENS. -/
def MAX_CONTEXT_TOKENS : Nat := 4000

/-- iteration.py TEXT_CHUNKS_PER_ITERATION. -/
def TEXT_CHUNKS_PER_ITERATION : Nat := 6

/-- iteration.py TABLE_CHUNKS_PER_ITERATION. -/
def TABLE_CHUNKS_PER_ITERATION : Nat := 4

/-- "\n\n---\n\n".join(context_parts) of trim_context_to_fit. -/
def joinSep : List String → String
  | [] => ""
  | [p] => p
  | p :: rest => p ++ "\n\n---\n\n" ++ joinSep rest

/-- The trimming loop of trim_context_to_fit (iteration.py lines 271-278):
stop when the joined text fits or at most one entry remains, else drop the
last entry.  Fuel starts at the length of the list, which bounds the number
of loop iterations. -/
def trimGo : Nat → List String → Nat → List String
  | 0, parts, _ => parts
  | fuel + 1, parts, maxT =>
    if estimate_tokens (joinSep parts) ≤ maxT then parts
    else if parts.length ≤ 1 then parts
    else trimGo fuel parts.dropLast maxT

/-- iteration.py trim_context_to_fit. -/
def trim_context_to_fit (parts : List String) (maxT : Nat) : String :=
  joinSep (trimGo parts.length parts maxT)

/-- Python list slice l[i : i + k]. -/
def sliceAt (l : List Chunk) (i k : Nat) : List Chunk :=
  (l.drop i).take k

/-- Python cumulative_cited_sources[-n:] (the last n entries; all of them for n = 0). -/
def lastSlice (l : List Chunk) (n : Nat) : List Chunk :=
  if n = 0 then l else l.drop (l.length - n)

/-- Rendered entry for a previously cited source (iteration.py lines 168-171). -/
def renderUsed (c : Chunk) : String :=
  let marker := if isTableType c then "[TABLE]" else "[TEXT]"
  "[📌 USED " ++ marker ++ " " ++ dispSource c ++ " p" ++ dispPage c ++ "]\n" ++ c.content

/-- Rendered entry for a new table chunk (iteration.py lines 184-186). -/
def renderTable (c : Chunk) : String :=
  "[📊 NEW " ++ dispSource c ++ " p" ++ dispPage c ++ "]\n" ++ c.content

/-- Rendered entry for a new text chunk (iteration.py lines 199-201). -/
def renderText (c : Chunk) : String :=
  "[📄 NEW " ++ dispSource c ++ " p" ++ dispPage c ++ "]\n" ++ c.content

/-- The assembly state of prepare_iteration_context: rendered parts, appended
chunks, and the seen_keys set. -/
structure AssembleSt where
  parts : List String
  chunks : List Chunk
  seen : List String
deriving DecidableEq

/-- Append one chunk entry unless its display key was already seen. -/
def addEntry (render : Chunk → String) (st : AssembleSt) (c : Chunk) : AssembleSt :=
  let key := dispKey c
  if key ∈ st.seen then st
  else { parts := st.parts ++ [render c], chunks := st.chunks ++ [c], seen := st.seen ++ [key] }

/-- iteration.py prepare_iteration_context: recalled cited sources first, then
new tables, then new text, each deduplicated by display key; the joined text
is budget-trimmed but the chunk list is not. -/
def prepare_iteration_context (cumulative newTextBatch newTableBatch : List Chunk)
    (maxT maxUsed : Nat) : String × List Chunk :=
  let st0 : AssembleSt := ⟨[], [], []⟩
  let st1 := if cumulative ≠ [] then (lastSlice cumulative maxUsed).foldl (addEntry renderUsed) st0 else st0
  let st2 := newTableBatch.foldl (addEntry renderTable) st1
  let st3 := newTextBatch.foldl (addEntry renderText) st2
  (trim_context_to_fit st3.parts maxT, st3.chunks)

/-- chunk.get("page", "") as read by get_surrounding_pages_smart. -/
def pageDefaulted (c : Chunk) : PVal :=
  match c.page with
  | PVal.pnone => PVal.pstr ""
  | p => p

/-- retrieval.py lines 83-97: turn a cited page value into the list of page
numbers it covers.  A string containing "-" is parsed as a hyphenated
inclusive range (falling back to int(page) when a part fails to parse);
otherwise int(page); none models the bare continue on failure. -/
def parsePages : PVal → Option (List Int)
  | PVal.pint n => some [n]
  | PVal.pnone => none
  | PVal.pstr s =>
    if '-' ∈ s.data then
      let parts := (splitOnCharAll '-' s.data).map pyToInt
      if parts.all Option.isSome then
        let ints := parts.filterMap id
        some (rangeIncl (ints.headD 0) (ints.getLastD 0))
      else (pyToInt s.data).map (fun n => [n])
    else (pyToInt s.data).map (fun n => [n])

/-- retrieval.py get_surrounding_pages_smart: for every cited chunk and every
page it covers, query the collection at each nonzero offset within the given
range, skipping pages below one and (source, page) keys already seen in this
call, and concatenate all returned chunks. -/
def get_surrounding_pages_smart (col : Collection) (cited : List Chunk)
    (pagesRange : Nat) : List Chunk :=
  (cited.foldl (fun (st : List String × List Chunk) c =>
    let source := c.source.getD ""
    match parsePages (pageDefaulted c) with
    | none => st
    | some currentPages =>
      currentPages.foldl (fun st cur =>
        (offsetsFor pagesRange).foldl (fun (st : List String × List Chunk) off =>
          let target := cur + off
          if target < 1 then st
          else
            let key := source ++ "_" ++ toString target
            if key ∈ st.1 then st
            else (st.1 ++ [key], st.2 ++ col source target)) st) st)
    (([] : List String), ([] : List Chunk))).2

/-- Lookup in the source_expansion_steps dict. -/
def lookupStep : List (String × Nat) → String → Option Nat
  | [], _ => none
  | (k, v) :: rest, s => if k = s then some v else lookupStep rest s

/-- source_expansion_steps.get(source, 0). -/
def getStepVal (m : List (String × Nat)) (s : String) : Nat :=
  (lookupStep m s).getD 0

/-- Dict assignment source_expansion_steps[source] = n. -/
def setStepVal : List (String × Nat) → String → Nat → List (String × Nat)
  | [], s, n => [(s, n)]
  | (k, v) :: rest, s, n => if k = s then (s, n) :: rest else (k, v) :: setStepVal rest s n

/-- iteration.py lines 71-74: dynamic_range = min(BASE + step, MAX) with
BASE_SURROUNDING_RANGE = 1 and MAX_SURROUNDING_RANGE = 4. -/
def dynamicRangeFor (m : List (String × Nat)) (s : String) : Nat :=
  min (1 + getStepVal m s) 4

/-- The state threaded through the expansion loop of get_next_chunk_batch:
seen_sources, source_expansion_steps and expanded_chunks. -/
structure ExpandSt where
  seenSources : List String
  steps : List (String × Nat)
  chunks : List Chunk
deriving DecidableEq

/-- One iteration of the expansion loop (iteration.py lines 58-85): skip a
falsy or already-seen source, otherwise query the surrounding pages at the
dynamic range and on a nonempty result increment the source's step. -/
def expandStep (col : Collection) (st : ExpandSt) (c : Chunk) : ExpandSt :=
  match c.source with
  | none => st
  | some s =>
    if s = "" ∨ s ∈ st.seenSources then st
    else
      let seen := st.seenSources ++ [s]
      let steps0 := if (lookupStep st.steps s).isNone then setStepVal st.steps s 0 else st.steps
      let step := getStepVal steps0 s
      let range := dynamicRangeFor steps0 s
      let surrounding := get_surrounding_pages_smart col [c] range
      if surrounding ≠ [] then
        { seenSources := seen, steps := setStepVal steps0 s (step + 1), chunks := st.chunks ++ surrounding }
      else
        { seenSources := seen, steps := steps0, chunks := st.chunks }

/-- The whole expansion loop over the cited sources, returning the updated
steps dict and the expanded chunks. -/
def expandCitedSources (col : Collection) (cited : List Chunk)
    (steps : List (String × Nat)) : List (String × Nat) × List Chunk :=
  let r := cited.foldl (expandStep col) ⟨[], steps, []⟩
  (r.steps, r.chunks)

/-- One step of the used-pages filter of iteration.py lines 88-93: keep the
chunk and record its key unless the key is already present. -/
def markNewPage (st : List String × List Chunk) (ch : Chunk) : List String × List Chunk :=
  let key := chunkKey ch
  if key ∈ st.1 then st
  else (st.1 ++ [key], st.2 ++ [ch])

/-- iteration.py lines 87-93: filter expanded chunks against used_pages,
adding each surviving chunk's key to the set while filtering. -/
def filterNewPages (chunks : List Chunk) (used : List String) : List String × List Chunk :=
  chunks.foldl markNewPage (used, [])

/-- The result record of get_next_chunk_batch, carrying the two batches, the
is_expanding flag, and the (mutated in Python) used_pages set and
source_expansion_steps dict. -/
structure PlanResult where
  textBatch : List Chunk
  tableBatch : List Chunk
  isExpanding : Bool
  usedPages : List String
  steps : List (String × Nat)
deriving DecidableEq

/-- Candidates filtered by key not in used_pages (iteration.py lines 117-127;
nothing is added to the set here). -/
def filterUnusedChunks (cands : List Chunk) (used : List String) : List Chunk :=
  cands.filter (fun c => decide (chunkKey c ∉ used))

/-- iteration.py lines 109-129: stop when both cursors are past their pools,
otherwise the next slices of candidates filtered by used_pages. -/
def advancingBatch (allText allTables : List Chunk) (textIndex tableIndex : Nat)
    (used : List String) (steps : List (String × Nat)) : PlanResult :=
  if allText.length ≤ textIndex ∧ allTables.length ≤ tableIndex then
    ⟨[], [], false, used, steps⟩
  else
    ⟨filterUnusedChunks (sliceAt allText textIndex TEXT_CHUNKS_PER_ITERATION) used,
     filterUnusedChunks (sliceAt allTables tableIndex TABLE_CHUNKS_PER_ITERATION) used,
     false, used, steps⟩

/-- The tail of the expansion branch of get_next_chunk_batch (iteration.py
lines 87-111 as reached from the expansion path): filter the expanded chunks
against used_pages, partition them by type, return them as an expanding batch
when any survive, else fall through to advancing with the mutated state. -/
def expansionResultBatch (allText allTables : List Chunk) (textIndex tableIndex : Nat)
    (usedPages : List String) (er : List (String × Nat) × List Chunk) : PlanResult :=
  let fr := filterNewPages er.2 usedPages
  let newText := fr.2.filter (fun c => !(isTableType c))
  let newTables := fr.2.filter isTableType
  if newText ≠ [] ∨ newTables ≠ [] then ⟨newText, newTables, true, fr.1, er.1⟩
  else advancingBatch allText allTables textIndex tableIndex fr.1 er.1

/-- iteration.py get_next_chunk_batch. -/
def get_next_chunk_batch (iteration : Nat) (allText allTables : List Chunk)
    (textIndex tableIndex : Nat) (cumulative : List Chunk) (lastAnswer : String)
    (usedPages : List String) (col : Collection) (steps : List (String × Nat)) : PlanResult :=
  if iteration = 1 then
    ⟨sliceAt allText textIndex TEXT_CHUNKS_PER_ITERATION,
     sliceAt allTables tableIndex TABLE_CHUNKS_PER_ITERATION,
     false, usedPages, steps⟩
  else if check_if_answer_incomplete lastAnswer ∧ cumulative ≠ [] then
    expansionResultBatch allText allTables textIndex tableIndex usedPages
      (expandCitedSources col cumulative steps)
  else advancingBatch allText allTables textIndex tableIndex usedPages steps

/-- The result record of process_iteration_result, carrying the updated
cumulative cited sources, the (mutated in Python) used_pages set, and the
is_complete flag. -/
structure ProcessResult where
  cumulative : List Chunk
  usedPages : List String
  isComplete : Bool
deriving DecidableEq

/-- The duplicate test of iteration.py lines 243-247: equality of the
(source, page) field pair. -/
def samePair (a b : Chunk) : Bool :=
  decide (a.source = b.source ∧ a.page = b.page)

/-- The accumulation step of iteration.py lines 240-252: append a cited chunk
unless a chunk with the same (source, page) pair is already accumulated, and
record its key in used_pages. -/
def addCited (st : List Chunk × List String) (ns : Chunk) : List Chunk × List String :=
  if st.1.any (fun ex => samePair ex ns) then st
  else
    (st.1 ++ [ns], if chunkKey ns ∈ st.2 then st.2 else st.2 ++ [chunkKey ns])

/-- iteration.py process_iteration_result. -/
def process_iteration_result (answer : String) (currentChunks cumulative : List Chunk)
    (usedPages : List String) : ProcessResult :=
  let ins := check_if_answer_insufficient answer
  let inc := check_if_answer_incomplete answer
  let cited := if ins then [] else extract_used_sources_from_answer answer currentChunks
  let r := cited.foldl addCited (cumulative, usedPages)
  ⟨r.1, r.2, !ins && !inc⟩

/-- API.py TEXT_CHUNKS_PER_ITERATION (the per-round cursor advance). -/
def API_TEXT_STEP : Nat := 2

/-- API.py TABLE_CHUNKS_PER_ITERATION (the per-round cursor advance). -/
def API_TABLE_STEP : Nat := 2

/-- The mutable state of one answer_question loop invocation. -/
structure LoopState where
  cumulative : List Chunk
  iteration : Nat
  textIndex : Nat
  tableIndex : Nat
  lastAnswer : String
  usedPages : List String
  steps : List (String × Nat)
deriving DecidableEq

/-- The outcome of one pass through the while body of answer_question:
a terminal return with an answer and sources, the loop break on empty
batches (after which the last answer and sources are returned), a terminal
error return, or the next loop state. -/
inductive RoundResult where
  | finished (answer : String) (sources : List Chunk)
  | exhausted (lastAnswer : String) (sources : List Chunk)
  | fatal (msg : String)
  | next (st : LoopState)
deriving DecidableEq

/-- The value call_groq_model returns on an HTTP 413 (API.py line 336). -/
def payloadTooLargeResp : String × Bool :=
  ("Payload too large", false)

/-- One pass through the while body of answer_question (API.py lines 97-162),
with the completion call's (text, success) return passed in as resp.  On
"Payload too large" the body continues without advancing cursors, iteration
or last_answer; the in-place mutations the planner made to used_pages and
source_expansion_steps persist. -/
def answer_round (col : Collection) (allText allTables : List Chunk)
    (st : LoopState) (resp : String × Bool) : RoundResult :=
  let pr := get_next_chunk_batch st.iteration allText allTables st.textIndex st.tableIndex
    st.cumulative st.lastAnswer st.usedPages col st.steps
  if pr.textBatch = [] ∧ pr.tableBatch = [] then
    RoundResult.exhausted st.lastAnswer st.cumulative
  else
    let ctx := prepare_iteration_context st.cumulative pr.textBatch pr.tableBatch MAX_CONTEXT_TOKENS 6
    if resp.2 = false then
      if subOf ("Rate limited".data) resp.1.data then RoundResult.fatal resp.1
      else if subOf ("Payload too large".data) resp.1.data then
        RoundResult.next { st with usedPages := pr.usedPages, steps := pr.steps }
      else RoundResult.fatal resp.1
    else
      let answer := resp.1
      let res := process_iteration_result answer ctx.2 st.cumulative pr.usedPages
      if res.isComplete then
        RoundResult.finished (remove_status_from_answer answer) res.cumulative
      else
        RoundResult.next
          { cumulative := res.cumulative,
            iteration := st.iteration + 1,
            textIndex := if pr.isExpanding then st.textIndex else st.textIndex + API_TEXT_STEP,
            tableIndex := if pr.isExpanding then st.tableIndex else st.tableIndex + API_TABLE_STEP,
            lastAnswer := answer,
            usedPages := res.usedPages,
            steps := pr.steps }

/-- The per-source expansion-step dict after n consecutive expansion rounds on
a single cited chunk, starting from the empty dict of answer_question and
letting the collection's responses vary per round. -/
def stepsTraceFn (cols : Nat → Collection) (c : Chunk) : Nat → List (String × Nat)
  | 0 => []
  | n + 1 => (expandCitedSources (cols n) [c] (stepsTraceFn cols c n)).1

/-- Claim reading of the insufficiency check, written from the spec's words:
some line beginning with "Status:" (case-insensitively) has the stripped,
lowered value "no information", or the lowered text contains the canonical
phrase "no sufficient information". -/
def specStatusInsufficient (text : String) : Bool :=
  (pySplitLines text.data).any (fun l =>
    startsCaseless ("status:".data) l &&
      decide (pyStrip pyIsSpace (pyLower (l.drop 7)) = "no information".data)) ||
  subOf ("no sufficient information".data) (pyLower text.data)

/-- Remove a final dot extension from a file name (claim reading: "extension
stripped"). -/
def dropExtension (l : List Char) : List Char :=
  let parts := splitOnCharAll '.' l
  if parts.length ≤ 1 then l else intercalateChar '.' parts.dropLast

/-- Claim reading of the normalized source name: path and extension stripped,
lower-cased. -/
def specNormalizedSourceName (source : String) : List Char :=
  pyLower (dropExtension (afterLastSlash source.data))

/-- Claim reading of status stripping: the answer text with every line
beginning with "Status:" (case-insensitively) removed, the other lines kept
verbatim. -/
def specRemoveStatusLines (text : String) : String :=
  String.mk (intercalateChar '\n'
    ((pySplitLines text.data).filter (fun l => !(startsCaseless ("status:".data) l))))

/-- A collection with no surrounding pages. -/
def sampleCol : Collection := fun _ _ => []

/-- A small text chunk used by the concrete rounds. -/
def sampleChunkA : Chunk :=
  { content := "alpha", source := some "a.pdf", page := PVal.pint 1, chunkType := some "text" }

/-- A long text chunk whose rendered entry overflows a small budget. -/
def sampleChunkBig : Chunk :=
  { content := "0123456789012345678901234567890123456789012345678901234567890123456789",
    source := some "b.pdf", page := PVal.pint 2, chunkType := some "text" }

/-- The fresh loop state of answer_question before round one. -/
def sampleState0 : LoopState :=
  { cumulative := [], iteration := 1, textIndex := 0, tableIndex := 0,
    lastAnswer := "", usedPages := [], steps := [] }

/-- A candidate chunk whose source has a non-pdf extension. -/
def notesChunk : Chunk :=
  { content := "n", source := some "notes.txt", page := PVal.pint 3, chunkType := some "text" }

/-- The candidate chunk of the claim's worked example, page 12. -/
def policyChunk : Chunk :=
  { content := "p", source := some "docs/policy.pdf", page := PVal.pint 12, chunkType := some "text" }

/-- The candidate chunk of the claim's worked example, page 13. -/
def policyChunk13 : Chunk :=
  { content := "p", source := some "docs/policy.pdf", page := PVal.pint 13, chunkType := some "text" }

/-- A neighbouring-page chunk returned by the expansion collection. -/
def hitChunk : Chunk :=
  { content := "nearby", source := some "a.pdf", page := PVal.pint 3, chunkType := some "text" }

/-- A collection that answers every point lookup with one chunk. -/
def hitCol : Collection := fun _ _ => [hitChunk]

/-- A constant per-round collection sequence for the expansion trace. -/
def hitColSeq : Nat → Collection := fun _ => hitCol

/-- A cited chunk driving the expansion trace. -/
def citedChunkA : Chunk :=
  { content := "cited", source := some "a.pdf", page := PVal.pint 2, chunkType := some "text" }

/-- The cumulative cited-sources list a successful round hands back: the
accumulation of process_iteration_result over the chunks that
prepare_iteration_context returned for the planner's batches (the value
answer_question returns next to the final answer). -/
def round_sources (col : Collection) (allText allTables : List Chunk)
    (st : LoopState) (answer : String) : List Chunk :=
  (process_iteration_result answer
    (prepare_iteration_context st.cumulative
      (get_next_chunk_batch st.iteration allText allTables st.textIndex st.tableIndex
        st.cumulative st.lastAnswer st.usedPages col st.steps).textBatch
      (get_next_chunk_batch st.iteration allText allTables st.textIndex st.tableIndex
        st.cumulative st.lastAnswer st.usedPages col st.steps).tableBatch
      MAX_CONTEXT_TOKENS 6).2
    st.cumulative
    (get_next_chunk_batch st.iteration allText allTables st.textIndex st.tableIndex
      st.cumulative st.lastAnswer st.usedPages col st.steps).usedPages).cumulative

theorem startsWithList_iff (p : List Char) : ∀ l, startsWithList p l = true ↔ ∃ t, l = p ++ t := by
  induction p with
  | nil =>
    intro l
    simp only [startsWithList, List.nil_append]
    exact ⟨fun _ => ⟨l, rfl⟩, fun _ => trivial⟩
  | cons a as ih =>
    intro l
    cases l with
    | nil =>
      simp only [startsWithList, List.cons_append]
      constructor
      · intro h; cases h
      · rintro ⟨t, ht⟩; cases ht
    | cons b bs =>
      simp only [startsWithList, Bool.and_eq_true, decide_eq_true_eq, ih, List.cons_append,
        List.cons.injEq]
      constructor
      · rintro ⟨rfl, t, rfl⟩; exact ⟨t, rfl, rfl⟩
      · rintro ⟨t, rfl, rfl⟩; exact ⟨rfl, t, rfl⟩

theorem subOf_iff (n : List Char) : ∀ h, subOf n h = true ↔ ∃ s t, h = s ++ n ++ t := by
  intro h
  induction h with
  | nil =>
    simp only [subOf, List.isEmpty_iff]
    constructor
    · rintro rfl; exact ⟨[], [], rfl⟩
    · rintro ⟨s, t, hst⟩
      rcases List.append_eq_nil.mp (List.append_eq_nil.mp hst.symm).1 with ⟨_, hn⟩
      exact hn
  | cons c rest ih =>
    simp only [subOf, Bool.or_eq_true, startsWithList_iff, ih]
    constructor
    · rintro (⟨t, ht⟩ | ⟨s, t, hst⟩)
      · exact ⟨[], t, by simpa using ht⟩
      · exact ⟨c :: s, t, by simp [hst]⟩
    · rintro ⟨s, t, hst⟩
      cases s with
      | nil => exact Or.inl ⟨t, by simpa using hst⟩
      | cons c' s' =>
        right
        rw [List.cons_append, List.cons_append, List.cons.injEq] at hst
        exact ⟨s', t, hst.2⟩

theorem lookupStep_set_self (m : List (String × Nat)) (s : String) (n : Nat) :
    lookupStep (setStepVal m s n) s = some n := by
  induction m with
  | nil => simp [setStepVal, lookupStep]
  | cons kv rest ih =>
    obtain ⟨k, v⟩ := kv
    by_cases h : k = s
    · simp [setStepVal, lookupStep, h]
    · simp [setStepVal, lookupStep, h, ih]

theorem getStepVal_set_self (m : List (String × Nat)) (s : String) (n : Nat) :
    getStepVal (setStepVal m s n) s = n := by
  simp [getStepVal, lookupStep_set_self]

theorem getStepVal_ensure (m : List (String × Nat)) (s : String) :
    getStepVal (if (lookupStep m s).isNone then setStepVal m s 0 else m) s = getStepVal m s := by
  by_cases h : (lookupStep m s).isNone
  · rw [if_pos h, getStepVal_set_self, getStepVal, Option.isNone_iff_eq_none.mp h]
    rfl
  · rw [if_neg h]

theorem dynamicRangeFor_ensure (m : List (String × Nat)) (s : String) :
    dynamicRangeFor (if (lookupStep m s).isNone then setStepVal m s 0 else m) s =
      dynamicRangeFor m s := by
  rw [dynamicRangeFor, dynamicRangeFor, getStepVal_ensure]


theorem expandStep_init (col : Collection) (c : Chunk) (s : String)
    (hs : c.source = some s) (hne : s ≠ "") (steps : List (String × Nat)) :
    expandStep col ⟨[], steps, []⟩ c =
      (if get_surrounding_pages_smart col [c] (dynamicRangeFor steps s) = []
       then ⟨[s], if (lookupStep steps s).isNone then setStepVal steps s 0 else steps, []⟩
       else ⟨[s],
         setStepVal (if (lookupStep steps s).isNone then setStepVal steps s 0 else steps) s
           (getStepVal steps s + 1),
         get_surrounding_pages_smart col [c] (dynamicRangeFor steps s)⟩) := by
  simp only [expandStep, hs]
  have hcond : ¬ (s = "" ∨ s ∈ (⟨[], steps, []⟩ : ExpandSt).seenSources) := by
    simp [hne]
  rw [if_neg hcond]
  simp only [dynamicRangeFor_ensure, getStepVal_ensure]
  by_cases hsur : get_surrounding_pages_smart col [c] (dynamicRangeFor steps s) = []
  · rw [if_neg (not_not_intro hsur), if_pos hsur]
    simp
  · rw [if_pos hsur, if_neg hsur]
    simp

theorem expandCited_singleton_chunks (col : Collection) (c : Chunk) (s : String)
    (hs : c.source = some s) (hne : s ≠ "") (steps : List (String × Nat)) :
    (expandCitedSources col [c] steps).2 =
      get_surrounding_pages_smart col [c] (dynamicRangeFor steps s) := by
  simp only [expandCitedSources, List.foldl_cons, List.foldl_nil]
  rw [expandStep_init col c s hs hne steps]
  by_cases hsur : get_surrounding_pages_smart col [c] (dynamicRangeFor steps s) = []
  · rw [if_pos hsur, hsur]
  · rw [if_neg hsur]

theorem expandCited_singleton_step (col : Collection) (c : Chunk) (s : String)
    (hs : c.source = some s) (hne : s ≠ "") (steps : List (String × Nat)) :
    getStepVal (expandCitedSources col [c] steps).1 s =
      (if get_surrounding_pages_smart col [c] (dynamicRangeFor steps s) = []
       then getStepVal steps s
       else getStepVal steps s + 1) := by
  simp only [expandCitedSources, List.foldl_cons, List.foldl_nil]
  rw [expandStep_init col c s hs hne steps]
  by_cases hsur : get_surrounding_pages_smart col [c] (dynamicRangeFor steps s) = []
  · rw [if_pos hsur, if_pos hsur]
    exact getStepVal_ensure steps s
  · rw [if_neg hsur, if_neg hsur]
    exact getStepVal_set_self _ s _

theorem stepsTrace_getStep_succ (cols : Nat → Collection) (c : Chunk) (s : String)
    (hs : c.source = some s) (hne : s ≠ "") (n : Nat) :
    getStepVal (stepsTraceFn cols c (n + 1)) s =
      (if get_surrounding_pages_smart (cols n) [c] (dynamicRangeFor (stepsTraceFn cols c n) s) = []
       then getStepVal (stepsTraceFn cols c n) s
       else getStepVal (stepsTraceFn cols c n) s + 1) := by
  rw [stepsTraceFn]
  exact expandCited_singleton_step (cols n) c s hs hne (stepsTraceFn cols c n)

theorem stepsTrace_getStep_mono (cols : Nat → Collection) (c : Chunk) (s : String)
    (hs : c.source = some s) (hne : s ≠ "") :
    ∀ m n, m ≤ n → getStepVal (stepsTraceFn cols c m) s ≤ getStepVal (stepsTraceFn cols c n) s := by
  intro m n hmn
  induction n with
  | zero =>
    have hm0 : m = 0 := Nat.le_zero.mp hmn
    rw [hm0]
  | succ n ih =>
    rcases Nat.lt_or_ge m (n + 1) with h | h
    · have hle : m ≤ n := Nat.lt_succ_iff.mp h
      refine le_trans (ih hle) ?_
      rw [stepsTrace_getStep_succ cols c s hs hne n]
      by_cases hsur : get_surrounding_pages_smart (cols n) [c]
          (dynamicRangeFor (stepsTraceFn cols c n) s) = []
      · rw [if_pos hsur]
      · rw [if_neg hsur]; omega
    · have hm : m = n + 1 := Nat.le_antisymm hmn h
      rw [hm]

theorem trimGo_spec : ∀ (fuel : Nat) (parts : List String) (maxT : Nat),
    parts.length ≤ fuel + 1 →
    estimate_tokens (joinSep (trimGo fuel parts maxT)) ≤ maxT ∨
      ∃ p, trimGo fuel parts maxT = [p] ∧ maxT < estimate_tokens p := by
  intro fuel
  induction fuel with
  | zero =>
    intro parts maxT hlen
    simp only [trimGo]
    cases parts with
    | nil =>
      left
      have h0 : estimate_tokens (joinSep []) = 0 := rfl
      omega
    | cons p rest =>
      cases rest with
      | nil =>
        by_cases h : estimate_tokens p ≤ maxT
        · left
          simpa [joinSep] using h
        · right
          exact ⟨p, rfl, by omega⟩
      | cons q rest2 =>
        simp at hlen
  | succ fuel ih =>
    intro parts maxT hlen
    simp only [trimGo]
    by_cases h1 : estimate_tokens (joinSep parts) ≤ maxT
    · rw [if_pos h1]
      exact Or.inl h1
    · rw [if_neg h1]
      by_cases h2 : parts.length ≤ 1
      · rw [if_pos h2]
        cases parts with
        | nil =>
          exact absurd (by have h0 : estimate_tokens (joinSep []) = 0 := rfl; omega) h1
        | cons p rest =>
          cases rest with
          | nil =>
            right
            refine ⟨p, rfl, ?_⟩
            have hj : joinSep [p] = p := rfl
            rw [hj] at h1
            omega
          | cons q rest2 =>
            simp at h2
      · rw [if_neg h2]
        apply ih
        have hd : parts.dropLast.length = parts.length - 1 := List.length_dropLast parts
        omega

theorem process_isComplete (answer : String) (chunks cumulative : List Chunk)
    (usedPages : List String) :
    (process_iteration_result answer chunks cumulative usedPages).isComplete =
      (!check_if_answer_insufficient answer && !check_if_answer_incomplete answer) := by
  simp [process_iteration_result]

theorem addCited_foldl_pairwise (cited : List Chunk) :
    ∀ st : List Chunk × List String,
      st.1.Pairwise (fun a b => ¬(a.source = b.source ∧ a.page = b.page)) →
      ((cited.foldl addCited st).1).Pairwise (fun a b => ¬(a.source = b.source ∧ a.page = b.page)) := by
  induction cited with
  | nil => intro st h; exact h
  | cons ns rest ih =>
    intro st h
    rw [List.foldl_cons]
    apply ih
    unfold addCited
    by_cases hd : st.1.any (fun ex => samePair ex ns) = true
    · rw [if_pos hd]
      exact h
    · rw [if_neg hd]
      have hall : ∀ x ∈ st.1, ¬(x.source = ns.source ∧ x.page = ns.page) := by
        intro x hx
        have : ¬(samePair x ns = true) := by
          intro hsp
          exact hd (List.any_eq_true.mpr ⟨x, hx, hsp⟩)
        simpa [samePair] using this
      show (st.1 ++ [ns]).Pairwise _
      rw [List.pairwise_append]
      refine ⟨h, List.pairwise_singleton _ _, ?_⟩
      intro a ha b hb
      rw [List.mem_singleton] at hb
      subst hb
      exact hall a ha

theorem addCited_foldl_used (cited : List Chunk) :
    ∀ (st : List Chunk × List String) (k : String),
      k ∈ (cited.foldl addCited st).2 → k ∈ st.2 ∨ ∃ c ∈ cited, k = chunkKey c := by
  induction cited with
  | nil =>
    intro st k hk
    exact Or.inl hk
  | cons ns rest ih =>
    intro st k hk
    rw [List.foldl_cons] at hk
    rcases ih (addCited st ns) k hk with h | ⟨c, hc, hkc⟩
    · unfold addCited at h
      by_cases hd : st.1.any (fun ex => samePair ex ns) = true
      · rw [if_pos hd] at h
        exact Or.inl h
      · rw [if_neg hd] at h
        by_cases hk2 : chunkKey ns ∈ st.2
        · rw [if_pos hk2] at h
          exact Or.inl h
        · rw [if_neg hk2] at h
          rcases List.mem_append.mp h with h | h
          · exact Or.inl h
          · rw [List.mem_singleton] at h
            exact Or.inr ⟨ns, List.mem_cons_self ns rest, h⟩
    · exact Or.inr ⟨c, List.mem_cons_of_mem ns hc, hkc⟩

theorem markNewPage_foldl_superset (chunks : List Chunk) :
    ∀ (st : List String × List Chunk) (k : String),
      k ∈ st.1 → k ∈ (chunks.foldl markNewPage st).1 := by
  induction chunks with
  | nil => intro st k hk; exact hk
  | cons ch rest ih =>
    intro st k hk
    rw [List.foldl_cons]
    apply ih
    unfold markNewPage
    by_cases h : chunkKey ch ∈ st.1
    · rw [if_pos h]
      exact hk
    · rw [if_neg h]
      exact List.mem_append.mpr (Or.inl hk)

theorem mem_filterUnusedChunks {cands : List Chunk} {used : List String} {c : Chunk}
    (h : c ∈ filterUnusedChunks cands used) : chunkKey c ∉ used := by
  have hm := List.mem_filter.mp h
  simpa using hm.2

theorem advancingBatch_unused (allText allTables : List Chunk) (textIndex tableIndex : Nat)
    (used : List String) (steps : List (String × Nat)) (c : Chunk)
    (hc : c ∈ (advancingBatch allText allTables textIndex tableIndex used steps).textBatch ∨
      c ∈ (advancingBatch allText allTables textIndex tableIndex used steps).tableBatch) :
    chunkKey c ∉ used := by
  unfold advancingBatch at hc
  by_cases h : allText.length ≤ textIndex ∧ allTables.length ≤ tableIndex
  · rw [if_pos h] at hc
    rcases hc with hc | hc <;> simp at hc
  · rw [if_neg h] at hc
    rcases hc with hc | hc <;> exact mem_filterUnusedChunks hc

theorem expansionResultBatch_unused (allText allTables : List Chunk) (textIndex tableIndex : Nat)
    (used : List String) (er : List (String × Nat) × List Chunk) (c : Chunk)
    (hexp : (expansionResultBatch allText allTables textIndex tableIndex used er).isExpanding = false)
    (hc : c ∈ (expansionResultBatch allText allTables textIndex tableIndex used er).textBatch ∨
      c ∈ (expansionResultBatch allText allTables textIndex tableIndex used er).tableBatch) :
    chunkKey c ∉ used := by
  simp only [expansionResultBatch] at hexp hc
  by_cases h : (filterNewPages er.2 used).2.filter (fun c => !(isTableType c)) ≠ [] ∨
      (filterNewPages er.2 used).2.filter isTableType ≠ []
  · rw [if_pos h] at hexp
    simp at hexp
  · rw [if_neg h] at hc
    intro hmem
    exact advancingBatch_unused allText allTables textIndex tableIndex _ _ c hc
      (markNewPage_foldl_superset er.2 (used, []) (chunkKey c) hmem)

/-- Claim C1 counterexample: with a small budget the second text chunk's
rendered entry is trimmed out of the context, yet the chunk still appears in
the returned list, so the returned list is not "exactly those chunks whose
rendered entries survived budget trimming". -/
theorem C1_counterexample :
    (prepare_iteration_context [] [sampleChunkA, sampleChunkBig] [] 10 6).2 =
      [sampleChunkA, sampleChunkBig] ∧
    (prepare_iteration_context [] [sampleChunkA, sampleChunkBig] [] 10 6).1 =
      "[📄 NEW a.pdf p1]\nalpha" ∧
    10 < estimate_tokens (renderText sampleChunkBig) := by
  refine ⟨by decide, by decide, by decide⟩

/-- Claim C1 (amended): the chunk list returned by prepare_iteration_context
is the full deduplicated append sequence (recalled cited sources, new tables,
new text, in order) and is independent of the token budget: budget trimming
shortens only the context text, never the returned chunk list. -/
theorem C1_amended_thm (cumulative newTextBatch newTableBatch : List Chunk)
    (m m' maxUsed : Nat) :
    (prepare_iteration_context cumulative newTextBatch newTableBatch m maxUsed).2 =
      (prepare_iteration_context cumulative newTextBatch newTableBatch m' maxUsed).2 := rfl

/-- Claim C2 counterexample: an answer whose Status line says "Complete
information" but whose body mentions "no information" is classified
insufficient by the code, while the claim's line-based reading classifies it
as not insufficient. -/
theorem C2_counterexample :
    check_if_answer_insufficient
      "Status: Complete information\nThere is no information about tuition fees." = true ∧
    specStatusInsufficient
      "Status: Complete information\nThere is no information about tuition fees." = false := by
  refine ⟨by decide, by decide⟩

/-- Claim C2 (amended): check_if_answer_insufficient is true exactly when the
lower-cased text contains the byte-corrupted marker phrase as a substring, or
contains both "status:" and "no information" as plain substrings anywhere
(not only as the value of a Status line). -/
theorem C2_amended_thm (answer : String) :
    check_if_answer_insufficient answer = true ↔
      (∃ s t, pyLower answer.data = s ++ mojibakeMarker ++ t) ∨
      ((∃ s t, pyLower answer.data = s ++ "status:".data ++ t) ∧
        (∃ s t, pyLower answer.data = s ++ "no information".data ++ t)) := by
  simp only [check_if_answer_insufficient, Bool.or_eq_true, Bool.and_eq_true, subOf_iff]

/-- Claim C8: the trimmed context never exceeds the token budget, except when
the trimming loop is left with exactly one entry that by itself exceeds the
budget (in which case that entry is returned as the whole context). -/
theorem C8_thm (parts : List String) (maxT : Nat) :
    estimate_tokens (trim_context_to_fit parts maxT) ≤ maxT ∨
      ∃ p, trimGo parts.length parts maxT = [p] ∧ maxT < estimate_tokens p ∧
        trim_context_to_fit parts maxT = p := by
  rcases trimGo_spec parts.length parts maxT (by omega) with h | ⟨p, hp, hlt⟩
  · exact Or.inl h
  · refine Or.inr ⟨p, hp, hlt, ?_⟩
    rw [trim_context_to_fit, hp]
    rfl

/-- Claim C10: an answer classified insufficient leaves all citation state
unchanged: process_iteration_result returns the input cumulative list and
used_pages set and reports the round as not complete. -/
theorem C10_thm (answer : String) (chunks cumulative : List Chunk) (usedPages : List String)
    (h : check_if_answer_insufficient answer = true) :
    process_iteration_result answer chunks cumulative usedPages =
      ⟨cumulative, usedPages, false⟩ := by
  simp [process_iteration_result, h]

/-- Witness for C10 at a concrete insufficient answer. -/
theorem C10_witness :
    process_iteration_result "Status: No information" [sampleChunkA] [] [] =
      ⟨[], [], false⟩ :=
  C10_thm "Status: No information" [sampleChunkA] [] [] (by decide)

/-- Claim C3 counterexample: in round one the planner shows a text chunk to
the model, the model answers Partial without citing it, and the round ends
with used_pages still empty — the shown chunk's key was never recorded. -/
theorem C3_counterexample :
    (get_next_chunk_batch 1 [sampleChunkA] [] 0 0 [] "" [] sampleCol []).textBatch =
      [sampleChunkA] ∧
    chunkKey sampleChunkA = "a.pdf_1" ∧
    answer_round sampleCol [sampleChunkA] [] sampleState0 ("Status: Partial information", true) =
      RoundResult.next
        { cumulative := [], iteration := 2, textIndex := 2, tableIndex := 2,
          lastAnswer := "Status: Partial information", usedPages := [], steps := [] } := by
  refine ⟨by decide, by decide, by decide⟩

/-- Claim C3 (amended): result processing adds to used_pages only the keys of
chunks actually cited in the answer — every key present afterwards was either
already present or is the key of an extracted cited chunk; merely shown but
uncited chunks are never recorded. -/
theorem C3_amended_thm (answer : String) (chunks cumulative : List Chunk)
    (usedPages : List String) (k : String)
    (hk : k ∈ (process_iteration_result answer chunks cumulative usedPages).usedPages) :
    k ∈ usedPages ∨ ∃ c ∈ extract_used_sources_from_answer answer chunks, k = chunkKey c := by
  simp only [process_iteration_result] at hk
  by_cases hins : check_if_answer_insufficient answer = true
  · rw [if_pos hins] at hk
    exact Or.inl hk
  · rw [if_neg hins] at hk
    exact addCited_foldl_used _ _ k hk

/-- Witness for the amended C3 at a concrete cited chunk. -/
theorem C3_amended_witness :
    chunkKey sampleChunkA ∈ ([] : List String) ∨
      ∃ c ∈ extract_used_sources_from_answer "Sources:\n- a p1" [sampleChunkA],
        chunkKey sampleChunkA = chunkKey c :=
  C3_amended_thm "Sources:\n- a p1" [sampleChunkA] [] [] (chunkKey sampleChunkA) (by decide)

/-- Claim C4 (code-bug evidence): on a "Payload too large" response in round
one the loop continues with a state identical to the one it started the round
with, so the deterministic planner re-selects exactly the same nonempty batch
— the retry cannot produce a different or smaller selection. -/
theorem C4_code_behavior :
    answer_round sampleCol [sampleChunkA] [] sampleState0 payloadTooLargeResp =
      RoundResult.next sampleState0 ∧
    (get_next_chunk_batch sampleState0.iteration [sampleChunkA] [] sampleState0.textIndex
      sampleState0.tableIndex sampleState0.cumulative sampleState0.lastAnswer
      sampleState0.usedPages sampleCol sampleState0.steps).textBatch = [sampleChunkA] := by
  refine ⟨by decide, by decide⟩

/-- Claim C5: on every expansion round over a cited source, the planner
queries the surrounding pages with range min(1 + step, 4) where step is the
source's counter (0 initially), the counter increments exactly when the query
returns at least one chunk, and the range is monotone in the round number and
never exceeds 4. -/
theorem C5_thm (cols : Nat → Collection) (c : Chunk) (s : String)
    (hs : c.source = some s) (hne : s ≠ "") (n : Nat) :
    (expandCitedSources (cols n) [c] (stepsTraceFn cols c n)).2 =
      get_surrounding_pages_smart (cols n) [c] (dynamicRangeFor (stepsTraceFn cols c n) s) ∧
    dynamicRangeFor (stepsTraceFn cols c n) s =
      min (1 + getStepVal (stepsTraceFn cols c n) s) 4 ∧
    getStepVal (stepsTraceFn cols c 0) s = 0 ∧
    getStepVal (stepsTraceFn cols c (n + 1)) s =
      (if get_surrounding_pages_smart (cols n) [c] (dynamicRangeFor (stepsTraceFn cols c n) s) = []
       then getStepVal (stepsTraceFn cols c n) s
       else getStepVal (stepsTraceFn cols c n) s + 1) ∧
    dynamicRangeFor (stepsTraceFn cols c n) s ≤ 4 ∧
    ∀ m, m ≤ n → dynamicRangeFor (stepsTraceFn cols c m) s ≤
      dynamicRangeFor (stepsTraceFn cols c n) s := by
  refine ⟨expandCited_singleton_chunks (cols n) c s hs hne _, rfl, rfl,
    stepsTrace_getStep_succ cols c s hs hne n, Nat.min_le_right _ _, ?_⟩
  intro m hm
  have hstep := stepsTrace_getStep_mono cols c s hs hne m n hm
  unfold dynamicRangeFor
  omega

/-- Witness for C5 after five expansion rounds of one source. -/
theorem C5_witness :
    dynamicRangeFor (stepsTraceFn hitColSeq citedChunkA 5) "a.pdf" ≤ 4 ∧
    ∀ m, m ≤ 5 → dynamicRangeFor (stepsTraceFn hitColSeq citedChunkA m) "a.pdf" ≤
      dynamicRangeFor (stepsTraceFn hitColSeq citedChunkA 5) "a.pdf" :=
  ⟨(C5_thm hitColSeq citedChunkA "a.pdf" rfl (by decide) 5).2.2.2.2.1,
   (C5_thm hitColSeq citedChunkA "a.pdf" rfl (by decide) 5).2.2.2.2.2⟩

/-- Claim C6: an advancing-state planner call (iteration above one, result not
expanding) returns no chunk whose key was already in used_pages when the call
began. -/
theorem C6_thm (iteration : Nat) (allText allTables : List Chunk)
    (textIndex tableIndex : Nat) (cumulative : List Chunk) (lastAnswer : String)
    (usedPages : List String) (col : Collection) (steps : List (String × Nat))
    (hiter : 1 < iteration)
    (hexp : (get_next_chunk_batch iteration allText allTables textIndex tableIndex
      cumulative lastAnswer usedPages col steps).isExpanding = false) :
    ∀ c : Chunk,
      (c ∈ (get_next_chunk_batch iteration allText allTables textIndex tableIndex
          cumulative lastAnswer usedPages col steps).textBatch ∨
        c ∈ (get_next_chunk_batch iteration allText allTables textIndex tableIndex
          cumulative lastAnswer usedPages col steps).tableBatch) →
      chunkKey c ∉ usedPages := by
  intro c hc
  have hne1 : ¬(iteration = 1) := by omega
  simp only [get_next_chunk_batch] at hexp hc
  rw [if_neg hne1] at hexp hc
  by_cases hb : check_if_answer_incomplete lastAnswer ∧ cumulative ≠ []
  · rw [if_pos hb] at hexp hc
    exact expansionResultBatch_unused allText allTables textIndex tableIndex usedPages
      (expandCitedSources col cumulative steps) c hexp hc
  · rw [if_neg hb] at hc
    exact advancingBatch_unused allText allTables textIndex tableIndex usedPages steps c hc

/-- Witness for C6 on a concrete advancing round. -/
theorem C6_witness : chunkKey sampleChunkA ∉ ["x_9"] :=
  C6_thm 2 [sampleChunkA] [] 0 0 [] "" ["x_9"] sampleCol [] (by omega) (by decide)
    sampleChunkA (Or.inl (by decide))

theorem citedPred_nil (c : Chunk) : citedPred [] c = false := by
  simp only [citedPred, List.any_nil]
  split <;> rfl

/-- Claim C7 counterexample: for the candidate with source "notes.txt" and
page 3 and the answer "Sources:\n- notes p3" the claim's reading (path and
extension stripped) makes the chunk cited, but the code strips only ".pdf",
keeps "notes.txt" as the name, and returns nothing. -/
theorem C7_counterexample :
    extract_used_sources_from_answer "Sources:\n- notes p3" [notesChunk] = [] ∧
    effSource notesChunk = "notes.txt" ∧
    truthyP (effPage notesChunk) = true ∧
    answerSourceLines "Sources:\n- notes p3" = ["notes p3".data] ∧
    specNormalizedSourceName "notes.txt" = "notes".data ∧
    subOf (specNormalizedSourceName "notes.txt") ("notes p3".data) = true ∧
    subOf ((pyStrOfPVal (effPage notesChunk)).data) ("notes p3".data) = true := by
  refine ⟨by decide, by decide, by decide, by decide, by decide, by decide, by decide⟩

/-- Claim C7 (amended): extraction filters the candidates in order by the code
predicate (truthy source and page, and some parsed source line containing
both the name with only ".pdf" occurrences removed, lower-cased, and
str(page)); it returns the empty list and never raises when no Sources
section exists, and the claim's worked policy.pdf example behaves as stated. -/
theorem C7_amended_thm :
    (∀ (answer : String) (chunks : List Chunk),
      extract_used_sources_from_answer answer chunks =
        chunks.filter (citedPred (answerSourceLines answer))) ∧
    extract_used_sources_from_answer "Sources:\n- policy.pdf p12" [policyChunk] = [policyChunk] ∧
    extract_used_sources_from_answer "Sources:\n- policy.pdf p12" [policyChunk13] = [] ∧
    extract_used_sources_from_answer "no sources section here" [policyChunk] = [] := by
  refine ⟨?_, by decide, by decide, by decide⟩
  intro answer chunks
  unfold extract_used_sources_from_answer answerSourceLines
  cases h : findSourcesTail answer.data with
  | none =>
    show [] = chunks.filter (citedPred [])
    have hnil : ∀ l : List Chunk, l.filter (citedPred []) = [] := by
      intro l
      induction l with
      | nil => rfl
      | cons c cs ihc =>
        rw [List.filter_cons, citedPred_nil]
        simpa using ihc
    exact (hnil chunks).symm
  | some tail => rfl

/-- Claim C9 counterexample: an answer carrying its status value on the line
after "Status:" is classified complete, yet the code's regex deletes that
following value line too, so the result is not "the answer text with every
Status: line removed". -/
theorem C9_counterexample :
    check_if_answer_insufficient "Answer: 42\nStatus:\nComplete information" = false ∧
    check_if_answer_incomplete "Answer: 42\nStatus:\nComplete information" = false ∧
    remove_status_from_answer "Answer: 42\nStatus:\nComplete information" = "Answer: 42" ∧
    specRemoveStatusLines "Answer: 42\nStatus:\nComplete information" =
      "Answer: 42\nComplete information" := by
  refine ⟨by decide, by decide, by decide, by decide⟩

/-- Claim C9 (amended): a round whose answer is classified complete returns in
that same round the answer transformed by remove_status_from_answer (each
line-anchored "status:" plus following whitespace, possibly spanning a line
break, plus that line's remainder deleted, the result trimmed) together with
the cumulative cited sources, whose (source, page) dedup invariant is
preserved. -/
theorem C9_amended_thm (col : Collection) (allText allTables : List Chunk)
    (st : LoopState) (answer : String)
    (hbatch : ¬((get_next_chunk_batch st.iteration allText allTables st.textIndex st.tableIndex
        st.cumulative st.lastAnswer st.usedPages col st.steps).textBatch = [] ∧
      (get_next_chunk_batch st.iteration allText allTables st.textIndex st.tableIndex
        st.cumulative st.lastAnswer st.usedPages col st.steps).tableBatch = []))
    (hins : check_if_answer_insufficient answer = false)
    (hinc : check_if_answer_incomplete answer = false)
    (hdedup : st.cumulative.Pairwise (fun a b => ¬(a.source = b.source ∧ a.page = b.page))) :
    answer_round col allText allTables st (answer, true) =
      RoundResult.finished (remove_status_from_answer answer)
        (round_sources col allText allTables st answer) ∧
    (round_sources col allText allTables st answer).Pairwise
      (fun a b => ¬(a.source = b.source ∧ a.page = b.page)) := by
  constructor
  · simp only [answer_round]
    rw [if_neg hbatch]
    have hcomp : (process_iteration_result answer
        (prepare_iteration_context st.cumulative
          (get_next_chunk_batch st.iteration allText allTables st.textIndex st.tableIndex
            st.cumulative st.lastAnswer st.usedPages col st.steps).textBatch
          (get_next_chunk_batch st.iteration allText allTables st.textIndex st.tableIndex
            st.cumulative st.lastAnswer st.usedPages col st.steps).tableBatch
          MAX_CONTEXT_TOKENS 6).2
        st.cumulative
        (get_next_chunk_batch st.iteration allText allTables st.textIndex st.tableIndex
          st.cumulative st.lastAnswer st.usedPages col st.steps).usedPages).isComplete = true := by
      rw [process_isComplete, hins, hinc]
      rfl
    simp only [hcomp, if_true, if_neg (by simp : ¬((answer, true).2 = false))]
    rfl
  · unfold round_sources
    simp only [process_iteration_result]
    exact addCited_foldl_pairwise _ _ hdedup

/-- Witness for the amended C9 on a concrete complete round. -/
theorem C9_amended_witness :
    answer_round sampleCol [sampleChunkA] [] sampleState0
        ("Answer: ok\nStatus: Complete information", true) =
      RoundResult.finished
        (remove_status_from_answer "Answer: ok\nStatus: Complete information")
        (round_sources sampleCol [sampleChunkA] [] sampleState0
          "Answer: ok\nStatus: Complete information") ∧
    (round_sources sampleCol [sampleChunkA] [] sampleState0
        "Answer: ok\nStatus: Complete information").Pairwise
      (fun a b => ¬(a.source = b.source ∧ a.page = b.page)) :=
  C9_amended_thm sampleCol [sampleChunkA] [] sampleState0
    "Answer: ok\nStatus: Complete information"
    (by decide) (by decide) (by decide) List.Pairwise.nil
